import Mathlib

/-!
Shallow embedding of the starrocks-br backup/restore orchestration core.

Each definition mirrors one Python function of the repository
(`src/starrocks_br/...` and the `backup.py` planner module); the database
engine is modelled as an explicit environment: query results appear as
function parameters (one response per poll, the contents of a control
table as a list of rows), and executed statements are returned as values
or event traces.  Machine state that the Python code mutates (the
`ops.run_status` table, the trace of submitted SQL) is passed explicitly.
-/

namespace StarrocksBr

/-! ### Execution monitor: `executor.poll_backup_status`

`SHOW BACKUP FROM <db>` returns at most one row; each poll the engine
either raises (`err`), returns no rows (`empty`), or returns a row from
which the code reads `SnapshotName` and `State` (`res name state`). -/

/-- Outcome of one `db.query("SHOW BACKUP FROM <database>")` call as seen by
`poll_backup_status`: an exception, an empty result set, or a first row
carrying a snapshot name and a state. -/
inductive PollResp where
  | err : PollResp
  | empty : PollResp
  | res (name : String) (state : String) : PollResp
deriving DecidableEq, Repr

/-- Return value of the poller: the dictionary `{"state": ..., "label": ...}`. -/
structure PollStatus where
  state : String
  label : String
deriving DecidableEq, Repr

/-- Loop body of `executor.poll_backup_status`: `fuel` is the number of
remaining iterations of `for _ in range(max_polls)`, `i` the index of the
next engine response, `first_poll` the Python `first_poll` flag. -/
def poll_backup_status_go (resp : Nat → PollResp) (label : String) :
    Nat → Nat → Bool → PollStatus
  | 0, _, _ => ⟨"TIMEOUT", label⟩
  | fuel + 1, i, first_poll =>
    match resp i with
    | PollResp.err => ⟨"ERROR", label⟩
    | PollResp.empty => poll_backup_status_go resp label fuel (i + 1) first_poll
    | PollResp.res name state =>
      if name ≠ label then
        if first_poll then poll_backup_status_go resp label fuel (i + 1) false
        else ⟨"LOST", label⟩
      else
        if state = "FINISHED" ∨ state = "CANCELLED" then ⟨state, label⟩
        else poll_backup_status_go resp label fuel (i + 1) false

/-- Embedding of `executor.poll_backup_status(db, label, database, max_polls)`:
the engine's successive responses are `resp 0, resp 1, ...`. -/
def poll_backup_status (resp : Nat → PollResp) (label : String)
    (max_polls : Nat) : PollStatus :=
  poll_backup_status_go resp label max_polls 0 true

/-- MAX_POLLS constant of `executor.py` (6 hours at 1-second intervals). -/
def MAX_POLLS : Nat := 21600

/-- A response that neither terminates the poll loop nor loses tracking:
empty rows, or a row reporting the tracked label in a non-terminal state. -/
def nonterminal_resp (resp : Nat → PollResp) (label : String) : Prop :=
  ∀ k, resp k = PollResp.empty ∨
    ∃ st, resp k = PollResp.res label st ∧ st ≠ "FINISHED" ∧ st ≠ "CANCELLED"

lemma poll_go_nonterminal_timeout (resp : Nat → PollResp) (label : String)
    (h : nonterminal_resp resp label) :
    ∀ fuel i fp, poll_backup_status_go resp label fuel i fp = ⟨"TIMEOUT", label⟩ := by
  intro fuel
  induction fuel with
  | zero => intro i fp; rfl
  | succ n ih =>
    intro i fp
    rcases h i with hk | ⟨st, hk, h1, h2⟩
    · simp only [poll_backup_status_go, hk]
      exact ih (i + 1) fp
    · simp only [poll_backup_status_go, hk]
      rw [if_neg (by simp), if_neg (by simp [h1, h2])]
      exact ih (i + 1) false

lemma poll_go_state_mem (resp : Nat → PollResp) (label : String) :
    ∀ fuel i fp, (poll_backup_status_go resp label fuel i fp).state ∈
      (["FINISHED", "CANCELLED", "TIMEOUT", "ERROR", "LOST"] : List String) := by
  intro fuel
  induction fuel with
  | zero => intro i fp; simp [poll_backup_status_go]
  | succ n ih =>
    intro i fp
    rcases hr : resp i with _ | _ | ⟨name, state⟩
    · simp [poll_backup_status_go, hr]
    · simp only [poll_backup_status_go, hr]
      exact ih (i + 1) fp
    · simp only [poll_backup_status_go, hr]
      by_cases hn : name ≠ label
      · rw [if_pos hn]
        cases fp with
        | true => rw [if_pos rfl]; exact ih (i + 1) false
        | false => rw [if_neg (by simp)]; simp
      · rw [if_neg hn]
        by_cases ht : state = "FINISHED" ∨ state = "CANCELLED"
        · rw [if_pos ht]
          rcases ht with h | h <;> simp [h]
        · rw [if_neg ht]
          exact ih (i + 1) false

/-- Running the loop through `m` polls that all report the tracked label in a
non-terminal state lands at index `j + m` with the `first_poll` flag cleared
(when `m ≥ 1`) and `m` fewer iterations of budget. -/
lemma poll_go_run_through (resp : Nat → PollResp) (label : String)
    (st : Nat → String) :
    ∀ m j fuel fp, m ≤ fuel →
    (∀ k, k < m → resp (j + k) = PollResp.res label (st (j + k)) ∧
      st (j + k) ≠ "FINISHED" ∧ st (j + k) ≠ "CANCELLED") →
    poll_backup_status_go resp label fuel j fp =
      poll_backup_status_go resp label (fuel - m) (j + m)
        (if m = 0 then fp else false) := by
  intro m
  induction m with
  | zero => intro j fuel fp _ _; simp
  | succ n ih =>
    intro j fuel fp hm hk
    obtain ⟨fuel', rfl⟩ : ∃ f, fuel = f + 1 :=
      ⟨fuel - 1, by omega⟩
    obtain ⟨h0, h1, h2⟩ := hk 0 (Nat.succ_pos n)
    rw [Nat.add_zero] at h0 h1 h2
    simp only [poll_backup_status_go, h0]
    rw [if_neg (by simp), if_neg (by simp [h1, h2])]
    have := ih (j + 1) fuel' false (by omega)
      (fun k hkn => by
        have := hk (k + 1) (by omega)
        rwa [show j + (k + 1) = j + 1 + k by omega] at this)
    rw [this]
    have harith : j + 1 + n = j + (n + 1) := by omega
    have hfuel : fuel' - n = fuel' + 1 - (n + 1) := by omega
    rw [harith, hfuel]
    cases n <;> simp

/-! ### Legacy planner poller: `backup.poll_backup_until_done`

This variant queries `SHOW BACKUP` in a `while True:` loop with no maximum
poll count; each response is either no rows (`none`) or a first row holding
`(status, backup_timestamp)`. -/

/-- Loop of `backup.poll_backup_until_done(db)` supplied with `fuel`
iterations: `none` means the loop was still running after `fuel` polls (the
Python loop has no bound of its own), `some (status, ts)` a returned value. -/
def poll_backup_until_done_go (resp : Nat → Option (String × Option String)) :
    Nat → Nat → Option (String × Option String)
  | 0, _ => none
  | fuel + 1, i =>
    match resp i with
    | none => poll_backup_until_done_go resp fuel (i + 1)
    | some (status, ts) =>
      if status = "FINISHED" ∨ status = "FAILED" then some (status, ts)
      else poll_backup_until_done_go resp fuel (i + 1)

/-- Observation of `backup.poll_backup_until_done` after `fuel` poll
iterations, starting from the first engine response. -/
def poll_backup_until_done (resp : Nat → Option (String × Option String))
    (fuel : Nat) : Option (String × Option String) :=
  poll_backup_until_done_go resp fuel 0

/-- An engine that forever reports a backup in state RUNNING. -/
def all_running_show : Nat → Option (String × Option String) :=
  fun _ => some ("RUNNING", none)

lemma poll_until_done_go_none (resp : Nat → Option (String × Option String))
    (h : ∀ k, resp k = none ∨
      ∃ s t, resp k = some (s, t) ∧ s ≠ "FINISHED" ∧ s ≠ "FAILED") :
    ∀ fuel i, poll_backup_until_done_go resp fuel i = none := by
  intro fuel
  induction fuel with
  | zero => intro i; rfl
  | succ n ih =>
    intro i
    rcases h i with hk | ⟨s, t, hk, h1, h2⟩
    · simp only [poll_backup_until_done_go, hk]
      exact ih (i + 1)
    · simp only [poll_backup_until_done_go, hk]
      rw [if_neg (by simp [h1, h2])]
      exact ih (i + 1)

/-- C1: on the first poll a snapshot-name mismatch is tolerated (the loop
goes on, and e.g. finishes normally if the label appears afterwards); a
mismatch on any later poll stops the loop at once with terminal state LOST
carrying the tracked label, and LOST is distinct from FAILED. -/
theorem poll_mismatch_race_classification
    (resp : Nat → PollResp) (label : String) (max_polls : Nat)
    (n0 s0 : String) :
    (resp 0 = PollResp.res n0 s0 → n0 ≠ label → 1 ≤ max_polls →
      poll_backup_status resp label max_polls =
        poll_backup_status_go resp label (max_polls - 1) 1 false) ∧
    (resp 0 = PollResp.res n0 s0 → n0 ≠ label → 2 ≤ max_polls →
      (∀ k, 1 ≤ k → resp k = PollResp.res label "FINISHED") →
      poll_backup_status resp label max_polls = ⟨"FINISHED", label⟩) ∧
    (∀ i (st : Nat → String) (n s : String), 1 ≤ i → i < max_polls →
      (∀ k, k < i → resp k = PollResp.res label (st k) ∧
        st k ≠ "FINISHED" ∧ st k ≠ "CANCELLED") →
      resp i = PollResp.res n s → n ≠ label →
      poll_backup_status resp label max_polls = ⟨"LOST", label⟩ ∧
        ("LOST" : String) ≠ "FAILED") := by
  refine ⟨?_, ?_, ?_⟩
  · intro h0 hne hm
    obtain ⟨f, rfl⟩ : ∃ f, max_polls = f + 1 := ⟨max_polls - 1, by omega⟩
    simp only [poll_backup_status, poll_backup_status_go, h0]
    rw [if_pos hne]
    simp
  · intro h0 hne hm h1
    obtain ⟨f, rfl⟩ : ∃ f, max_polls = f + 2 := ⟨max_polls - 2, by omega⟩
    simp only [poll_backup_status, poll_backup_status_go, h0]
    rw [if_pos hne, if_pos trivial]
    have hr1 := h1 1 le_rfl
    simp only [Nat.zero_add]
    simp only [poll_backup_status_go, hr1]
    rw [if_neg (by simp)]
    simp
  · intro i st n s hi him hk hri hne
    refine ⟨?_, by decide⟩
    have hrun := poll_go_run_through resp label st i 0 max_polls true
      (le_of_lt him)
      (fun k hki => by simpa using hk k hki)
    rw [poll_backup_status, hrun]
    rw [if_neg (by omega)]
    obtain ⟨f, hf⟩ : ∃ f, max_polls - i = f + 1 := ⟨max_polls - i - 1, by omega⟩
    rw [hf]
    simp only [Nat.zero_add, poll_backup_status_go, hri]
    rw [if_pos hne]
    simp

/-- Poll sequence whose first response names a foreign snapshot and which
afterwards reports the tracked label "L" as FINISHED. -/
def resp_first_mismatch : Nat → PollResp :=
  fun k => if k = 0 then PollResp.res "other" "RUNNING"
    else PollResp.res "L" "FINISHED"

/-- Poll sequence that reports the tracked label "L" once and then names a
foreign snapshot. -/
def resp_late_mismatch : Nat → PollResp :=
  fun k => if k = 0 then PollResp.res "L" "RUNNING"
    else PollResp.res "intruder" "RUNNING"

/-- C1 witness: a first-poll mismatch is survived (the run finishes once the
label shows up), while a mismatch on the second poll yields LOST. -/
theorem poll_mismatch_race_classification_witness :
    poll_backup_status resp_first_mismatch "L" 3 = ⟨"FINISHED", "L"⟩ ∧
    poll_backup_status resp_late_mismatch "L" 3 = ⟨"LOST", "L"⟩ := by
  constructor
  · exact (poll_mismatch_race_classification resp_first_mismatch "L" 3
      "other" "RUNNING").2.1 rfl (by decide) (by decide)
      (fun k hk => by
        simp only [resp_first_mismatch]
        rw [if_neg (by omega)])
  · exact ((poll_mismatch_race_classification resp_late_mismatch "L" 3
      "x" "x").2.2 1 (fun _ => "RUNNING") "intruder" "RUNNING"
      (by decide) (by decide)
      (fun k hk => by
        have : k = 0 := by omega
        subst this
        exact ⟨rfl, by decide, by decide⟩)
      rfl (by decide)).1

/-- C7 counterexample: against an engine that forever reports RUNNING,
`backup.poll_backup_until_done` has still not returned after 21601 poll
iterations — one more than the monitor's configured MAX_POLLS ceiling — so
the claim that the status-polling loop performs at most the configured
maximum number of polls and then returns TIMEOUT fails for this loop. -/
theorem poll_until_done_never_returns :
    poll_backup_until_done all_running_show (MAX_POLLS + 1) = none :=
  poll_until_done_go_none all_running_show
    (fun _ => Or.inr ⟨"RUNNING", none, rfl, by decide, by decide⟩)
    (MAX_POLLS + 1) 0

/-- C7 amended: `executor.poll_backup_status` does return TIMEOUT after at
most `max_polls` polls on any wholly non-terminal response sequence, but the
legacy `backup.poll_backup_until_done` loop has no poll ceiling: on any
non-terminal sequence it is still running after arbitrarily many polls. -/
theorem poll_budget_semantics :
    (∀ (resp : Nat → PollResp) (label : String) (max_polls : Nat),
      nonterminal_resp resp label →
      poll_backup_status resp label max_polls = ⟨"TIMEOUT", label⟩) ∧
    (∀ (resp : Nat → Option (String × Option String)) (fuel : Nat),
      (∀ k, resp k = none ∨
        ∃ s t, resp k = some (s, t) ∧ s ≠ "FINISHED" ∧ s ≠ "FAILED") →
      poll_backup_until_done resp fuel = none) :=
  ⟨fun resp label max_polls h =>
    poll_go_nonterminal_timeout resp label h max_polls 0 true,
   fun resp fuel h => poll_until_done_go_none resp h fuel 0⟩

/-- C7 witness: a concrete always-RUNNING engine trace drives the monitor to
TIMEOUT within its budget, while the legacy loop never returns on it. -/
theorem poll_budget_semantics_witness :
    poll_backup_status (fun _ => PollResp.res "L" "RUNNING") "L" 4 =
      ⟨"TIMEOUT", "L"⟩ ∧
    poll_backup_until_done all_running_show 50 = none := by
  constructor
  · exact poll_budget_semantics.1 (fun _ => PollResp.res "L" "RUNNING") "L" 4
      (fun k => Or.inr ⟨"RUNNING", rfl, by decide, by decide⟩)
  · exact poll_budget_semantics.2 all_running_show 50
      (fun _ => Or.inr ⟨"RUNNING", none, rfl, by decide, by decide⟩)

/-- C10: the poll result state is always one of FINISHED, CANCELLED,
TIMEOUT, ERROR, LOST — never FAILED; in particular an engine forever
reporting the tracked label in state FAILED exhausts the poll budget and
yields TIMEOUT. -/
theorem poll_never_returns_failed
    (resp : Nat → PollResp) (label : String) (max_polls : Nat) :
    (poll_backup_status resp label max_polls).state ∈
      (["FINISHED", "CANCELLED", "TIMEOUT", "ERROR", "LOST"] : List String) ∧
    (poll_backup_status resp label max_polls).state ≠ "FAILED" ∧
    ((∀ k, resp k = PollResp.res label "FAILED") →
      poll_backup_status resp label max_polls = ⟨"TIMEOUT", label⟩) := by
  have hmem := poll_go_state_mem resp label max_polls 0 true
  refine ⟨hmem, ?_, ?_⟩
  · simp only [List.mem_cons, List.not_mem_nil, or_false] at hmem
    rcases hmem with h | h | h | h | h <;> simp [poll_backup_status] at h ⊢ <;>
      simp [h]
  · intro h
    exact poll_go_nonterminal_timeout resp label
      (fun k => Or.inr ⟨"FAILED", h k, by decide, by decide⟩) max_polls 0 true

/-- C10 witness: an engine stuck in state FAILED for the tracked label is
polled to the budget and classified TIMEOUT, never FAILED. -/
theorem poll_never_returns_failed_witness :
    (poll_backup_status (fun _ => PollResp.res "L1" "FAILED") "L1" 3).state ∈
      (["FINISHED", "CANCELLED", "TIMEOUT", "ERROR", "LOST"] : List String) ∧
    (poll_backup_status (fun _ => PollResp.res "L1" "FAILED") "L1" 3).state ≠ "FAILED" ∧
    poll_backup_status (fun _ => PollResp.res "L1" "FAILED") "L1" 3 =
      ⟨"TIMEOUT", "L1"⟩ := by
  obtain ⟨h1, h2, h3⟩ :=
    poll_never_returns_failed (fun _ => PollResp.res "L1" "FAILED") "L1" 3
  exact ⟨h1, h2, h3 (fun _ => rfl)⟩

/-! ### Concurrency gate: `concurrency.reserve_job_slot`

The `ops.run_status` table is passed explicitly as a list of rows; the
`SELECT ... WHERE state = 'ACTIVE'` query is a filter over it, and the
`INSERT` appends the new row.  A raised conflict is the `some message`
outcome, leaving the table untouched. -/

/-- Row of `ops.run_status`: scope, label, state, the `started_at`
timestamp (modelled as a number) and the nullable `finished_at`. -/
structure RunRow where
  scope : String
  label : String
  state : String
  started_at : Nat
  finished_at : Option Nat
deriving DecidableEq, Repr

/-- Embedding of `concurrency.reserve_job_slot(db, scope, label)`: returns
the raised conflict message (if any) together with the table contents after
the call; `now` is the engine's NOW() at the insert. -/
def reserve_job_slot (table : List RunRow) (scope label : String)
    (now : Nat) : Option String × List RunRow :=
  let rows := table.filter (fun r => r.state = "ACTIVE")
  if rows.any (fun r => r.scope = scope) then
    let active_jobs := (rows.filter (fun r => r.scope = scope)).map
      (fun r => r.scope ++ ":" ++ r.label)
    (some ("Concurrency conflict: Another '" ++ scope ++
      "' job is already ACTIVE: " ++ String.intercalate ", " active_jobs),
     table)
  else
    (none, table ++ [⟨scope, label, "ACTIVE", now, none⟩])

/-- Embedding of `concurrency.complete_job_slot(db, scope, label,
final_state)`: updates state and `finished_at` of the matching rows. -/
def complete_job_slot (table : List RunRow) (scope label final_state : String)
    (now : Nat) : List RunRow :=
  table.map (fun r =>
    if r.scope = scope ∧ r.label = label then
      { r with state := final_state, finished_at := some now }
    else r)

/-- C2: `reserve_job_slot` raises a conflict iff the table holds an ACTIVE
row of the same scope (whatever its label); on conflict the table is
unchanged, and otherwise exactly the one row (scope, label, ACTIVE, now) is
appended. -/
theorem reserve_job_slot_conflict_iff (table : List RunRow)
    (scope label : String) (now : Nat) :
    ((reserve_job_slot table scope label now).1 ≠ none ↔
      ∃ r ∈ table, r.state = "ACTIVE" ∧ r.scope = scope) ∧
    ((∃ r ∈ table, r.state = "ACTIVE" ∧ r.scope = scope) →
      (reserve_job_slot table scope label now).2 = table) ∧
    ((¬ ∃ r ∈ table, r.state = "ACTIVE" ∧ r.scope = scope) →
      (reserve_job_slot table scope label now).2 =
        table ++ [⟨scope, label, "ACTIVE", now, none⟩]) := by
  have hcond : ((table.filter (fun r => r.state = "ACTIVE")).any
      (fun r => r.scope = scope) = true) ↔
      ∃ r ∈ table, r.state = "ACTIVE" ∧ r.scope = scope := by
    simp only [List.any_eq_true, List.mem_filter, decide_eq_true_eq]
    constructor
    · rintro ⟨r, ⟨hr, hs⟩, hsc⟩; exact ⟨r, hr, hs, hsc⟩
    · rintro ⟨r, hr, hs, hsc⟩; exact ⟨r, ⟨hr, hs⟩, hsc⟩
  by_cases h : (table.filter (fun r => r.state = "ACTIVE")).any
      (fun r => r.scope = scope) = true
  · refine ⟨?_, ?_, ?_⟩
    · simp only [reserve_job_slot, if_pos h]
      simpa using hcond.mp h
    · intro _; simp only [reserve_job_slot, if_pos h]
    · intro hno; exact absurd (hcond.mp h) hno
  · refine ⟨?_, ?_, ?_⟩
    · simp only [reserve_job_slot, if_neg h]
      constructor
      · intro hc; exact absurd rfl hc
      · intro hex; exact absurd (hcond.mpr hex) h
    · intro hex; exact absurd (hcond.mpr hex) h
    · intro _; simp only [reserve_job_slot, if_neg h]

/-- C2 witness: with one ACTIVE backup row, a second backup-scope
reservation conflicts with the table untouched, while a restore-scope
reservation of the same table succeeds and appends exactly its row. -/
theorem reserve_job_slot_conflict_iff_witness :
    (reserve_job_slot [⟨"backup", "L0", "ACTIVE", 5, none⟩] "backup" "L1" 9).1 ≠
      none ∧
    (reserve_job_slot [⟨"backup", "L0", "ACTIVE", 5, none⟩] "backup" "L1" 9).2 =
      [⟨"backup", "L0", "ACTIVE", 5, none⟩] ∧
    (reserve_job_slot [⟨"backup", "L0", "ACTIVE", 5, none⟩] "restore" "L2" 9).2 =
      [⟨"backup", "L0", "ACTIVE", 5, none⟩, ⟨"restore", "L2", "ACTIVE", 9, none⟩] := by
  refine ⟨?_, ?_, ?_⟩
  · exact (reserve_job_slot_conflict_iff [⟨"backup", "L0", "ACTIVE", 5, none⟩]
      "backup" "L1" 9).1.mpr ⟨⟨"backup", "L0", "ACTIVE", 5, none⟩, by simp, rfl, rfl⟩
  · exact (reserve_job_slot_conflict_iff [⟨"backup", "L0", "ACTIVE", 5, none⟩]
      "backup" "L1" 9).2.1 ⟨⟨"backup", "L0", "ACTIVE", 5, none⟩, by simp, rfl, rfl⟩
  · exact (reserve_job_slot_conflict_iff [⟨"backup", "L0", "ACTIVE", 5, none⟩]
      "restore" "L2" 9).2.2 (by
        rintro ⟨r, hr, -, hsc⟩
        simp only [List.mem_singleton] at hr
        subst hr
        exact absurd hsc (by decide))

/-! ### Backup planner: `backup.decide_backup_plan` and friends

`ops.backup_history` is passed as a list of rows; the partition-diff query
`get_changed_partitions_since(db, table, since_ts)` is the environment
parameter `changed`.  Timestamps are numbers (the SQL `MAX` over the
`DATE_FORMAT`ed datetime strings is order-isomorphic to `max` on them). -/

/-- Row of `ops.backup_history` as read by the planner: the status and the
nullable `backup_timestamp`. -/
structure BHRow where
  status : String
  backup_timestamp : Option Nat
deriving DecidableEq, Repr

/-- The planner's output `BackupPlan` dataclass; `partitions_by_table` is
the dict as an association list in insertion order. -/
structure BackupPlan where
  backup_type : String
  tables : List String
  partitions_by_table : List (String × List String)
deriving DecidableEq, Repr

/-- Embedding of `backup.get_last_successful_backup(db)`: the SQL
`SELECT MAX(backup_timestamp) ... WHERE status='FINISHED'` aggregate (NULL
timestamps are ignored by MAX, and a NULL aggregate is returned as None by
the Python `ts if ts else None`). -/
def get_last_successful_backup (hist : List BHRow) : Option Nat :=
  ((hist.filter (fun r => r.status = "FINISHED")).filterMap
    (fun r => r.backup_timestamp)).max?

/-- Embedding of `backup.decide_backup_plan(db, tables)`; `changed t ts`
is the engine's answer to `get_changed_partitions_since(db, t, ts)`. -/
def decide_backup_plan (hist : List BHRow)
    (changed : String → Nat → List String) (tables : List String) :
    BackupPlan :=
  match get_last_successful_backup hist with
  | none => ⟨"full", tables, []⟩
  | some last_ts =>
    let partitions_by_table := tables.map (fun t => (t, changed t last_ts))
    let has_any_changes := tables.any (fun t => !(changed t last_ts).isEmpty)
    if !has_any_changes then ⟨"incremental", [], []⟩
    else ⟨"incremental", tables, partitions_by_table⟩

/-- Lookup in the plan's partition dict: `partitions_by_table.get(t) or []`. -/
def lookup_partitions (m : List (String × List String)) (t : String) :
    List String :=
  ((m.find? (fun p => p.1 == t)).map Prod.snd).getD []

/-- Object list of the full-backup statement:
`plan.tables + ["ops.backup_history"]` (the argument of `", ".join`). -/
def full_backup_objects (plan : BackupPlan) : List String :=
  plan.tables ++ ["ops.backup_history"]

/-- Embedding of `backup.issue_backup_commands(db, plan, repository)`:
the list of SQL statements passed to `db.execute`, in order. -/
def issue_backup_commands (plan : BackupPlan) (repository : String) :
    List String :=
  if plan.backup_type = "full" then
    ["BACKUP DATABASE ops ON (" ++
      String.intercalate ", " (full_backup_objects plan) ++ ") TO " ++
      repository]
  else
    plan.tables.map (fun table =>
      let partitions := lookup_partitions plan.partitions_by_table table
      if !partitions.isEmpty then
        "BACKUP DATABASE ops ON (" ++ table ++ " PARTITION (" ++
          String.intercalate ", " partitions ++
          "), ops.backup_history) TO " ++ repository
      else
        "BACKUP DATABASE ops ON (" ++ table ++
          ", ops.backup_history) TO " ++ repository)

lemma get_last_successful_backup_eq_none_iff (hist : List BHRow) :
    get_last_successful_backup hist = none ↔
      ¬ ∃ r ∈ hist, r.status = "FINISHED" ∧ r.backup_timestamp ≠ none := by
  simp only [get_last_successful_backup, List.max?_eq_none_iff,
    List.filterMap_eq_nil_iff, List.mem_filter, decide_eq_true_eq]
  constructor
  · rintro h ⟨r, hr, hs, ht⟩
    exact ht (h r ⟨hr, hs⟩)
  · intro h r hr
    by_contra hne
    exact h ⟨r, hr.1, hr.2, hne⟩

/-- History with one FINISHED backup whose `backup_timestamp` is NULL. -/
def hist_null_ts : List BHRow := [⟨"FINISHED", none⟩]

/-- C4 counterexample: a FINISHED backup whose `backup_timestamp` is NULL is
invisible to the `MAX(backup_timestamp)` baseline query, so `decide_plan`
returns a full plan even though a FINISHED backup exists in the history —
refuting "full iff no FINISHED backup exists". -/
theorem decide_backup_plan_full_despite_finished :
    (decide_backup_plan hist_null_ts (fun _ _ => ["p1"])
      ["t1"]).backup_type = "full" ∧
    ∃ r ∈ hist_null_ts, r.status = "FINISHED" := by
  constructor
  · rfl
  · refine ⟨⟨"FINISHED", none⟩, ?_, ?_⟩
    · simp [hist_null_ts]
    · rfl

/-- C4 amended: for a non-empty table list, `decide_plan` returns a full
plan iff the history has no FINISHED backup with a non-NULL
`backup_timestamp`; in every other case it returns an incremental plan. -/
theorem decide_backup_plan_full_iff (hist : List BHRow)
    (changed : String → Nat → List String) (tables : List String)
    (_hne : tables ≠ []) :
    ((decide_backup_plan hist changed tables).backup_type = "full" ↔
      ¬ ∃ r ∈ hist, r.status = "FINISHED" ∧ r.backup_timestamp ≠ none) ∧
    ((∃ r ∈ hist, r.status = "FINISHED" ∧ r.backup_timestamp ≠ none) →
      (decide_backup_plan hist changed tables).backup_type =
        "incremental") := by
  rcases hb : get_last_successful_backup hist with _ | ts
  · have hnot := (get_last_successful_backup_eq_none_iff hist).mp hb
    refine ⟨⟨fun _ => hnot, fun _ => ?_⟩, fun hex => absurd hex hnot⟩
    unfold decide_backup_plan
    rw [hb]
  · have hex : ∃ r ∈ hist, r.status = "FINISHED" ∧ r.backup_timestamp ≠ none := by
      by_contra hno
      rw [← get_last_successful_backup_eq_none_iff] at hno
      rw [hb] at hno
      exact Option.some_ne_none ts hno
    have htype : (decide_backup_plan hist changed tables).backup_type =
        "incremental" := by
      simp only [decide_backup_plan, hb]
      by_cases hch : (tables.any (fun t => !(changed t ts).isEmpty)) = true <;>
        simp [hch]
    refine ⟨?_, fun _ => htype⟩
    rw [htype]
    constructor
    · intro h; exact absurd h (by decide)
    · intro h; exact absurd hex h

/-- C4 witness: a real FINISHED baseline (timestamped) flips the decision to
incremental, and an empty history yields a full plan. -/
theorem decide_backup_plan_full_iff_witness :
    (decide_backup_plan [⟨"FINISHED", some 10⟩] (fun _ _ => ["p1"])
      ["t1"]).backup_type = "incremental" ∧
    (decide_backup_plan [] (fun _ _ => ["p1"]) ["t1"]).backup_type = "full" := by
  constructor
  · exact (decide_backup_plan_full_iff [⟨"FINISHED", some 10⟩]
      (fun _ _ => ["p1"]) ["t1"] (by decide)).2
      ⟨⟨"FINISHED", some 10⟩, by simp, rfl, by simp⟩
  · exact (decide_backup_plan_full_iff [] (fun _ _ => ["p1"]) ["t1"]
      (by decide)).1.mpr (by rintro ⟨r, hr, -⟩; simp at hr)

/-- C5: with a resolved baseline timestamp and no changed partitions on any
listed table, `decide_plan` returns exactly the empty incremental sentinel
plan — not a full plan and not a populated incremental plan. -/
theorem decide_backup_plan_empty_sentinel (hist : List BHRow)
    (changed : String → Nat → List String) (tables : List String) (ts : Nat)
    (hb : get_last_successful_backup hist = some ts)
    (hc : ∀ t ∈ tables, changed t ts = []) :
    decide_backup_plan hist changed tables = ⟨"incremental", [], []⟩ := by
  simp only [decide_backup_plan, hb]
  have hno : (tables.any (fun t => !(changed t ts).isEmpty)) = false := by
    rw [List.any_eq_false]
    intro t ht
    simp [hc t ht]
  simp [hno]

/-- C5 witness: a timestamped baseline and a two-table list with no changed
partitions produce the empty sentinel plan. -/
theorem decide_backup_plan_empty_sentinel_witness :
    decide_backup_plan [⟨"FINISHED", some 10⟩] (fun _ _ => [])
      ["s.t1", "s.t2"] = ⟨"incremental", [], []⟩ :=
  decide_backup_plan_empty_sentinel [⟨"FINISHED", some 10⟩] (fun _ _ => [])
    ["s.t1", "s.t2"] 10 rfl (fun _ _ => rfl)

/-- C6: a full-plan submission is a single BACKUP statement whose object
list enumerates every plan table and additionally the tool's own
`ops.backup_history` control table. -/
theorem full_backup_command_includes_history (plan : BackupPlan)
    (repository : String) (hf : plan.backup_type = "full")
    (_hne : plan.tables ≠ []) :
    (∀ t ∈ plan.tables, t ∈ full_backup_objects plan) ∧
    "ops.backup_history" ∈ full_backup_objects plan ∧
    issue_backup_commands plan repository =
      ["BACKUP DATABASE ops ON (" ++
        String.intercalate ", " (full_backup_objects plan) ++ ") TO " ++
        repository] := by
  refine ⟨fun t ht => List.mem_append_left _ ht,
    List.mem_append_right _ (by simp), ?_⟩
  simp [issue_backup_commands, hf]

/-- C6 witness: the spec scenario — full plan over `s.t1`, `s.t2` — submits
one statement listing both tables and the control history table. -/
theorem full_backup_command_includes_history_witness :
    ("s.t1" ∈ full_backup_objects ⟨"full", ["s.t1", "s.t2"], []⟩) ∧
    ("ops.backup_history" ∈ full_backup_objects ⟨"full", ["s.t1", "s.t2"], []⟩) ∧
    issue_backup_commands ⟨"full", ["s.t1", "s.t2"], []⟩ "test_repo" =
      ["BACKUP DATABASE ops ON (s.t1, s.t2, ops.backup_history) TO test_repo"] := by
  obtain ⟨h1, h2, h3⟩ := full_backup_command_includes_history
    ⟨"full", ["s.t1", "s.t2"], []⟩ "test_repo" rfl (by decide)
  refine ⟨h1 "s.t1" (by simp), h2, ?_⟩
  rw [h3]
  rfl

/-! ### Run termination and slot release: `cli.backup_incremental` /
`executor.execute_backup`

Only the side effects relevant to the job-slot lifecycle are traced: the
statement submission, the history write and the `complete_job_slot`
attempt (the Python code wraps the latter two in `try/except: pass`, so an
event records the attempt regardless of its own outcome). -/

/-- One traced side effect of the backup execution path. -/
inductive BkEvent where
  | submit_cmd : BkEvent
  | write_history (status : String) : BkEvent
  | complete_slot (scope label state : String) : BkEvent
deriving DecidableEq, Repr

/-- Boolean recogniser for a `complete_job_slot` attempt. -/
def is_complete_slot_event : BkEvent → Bool
  | BkEvent.complete_slot _ _ _ => true
  | _ => false

/-- Embedding of `executor.execute_backup`: returns the `success` flag and
the ordered side effects after the job slot was reserved.  `submit_ok` is
whether `db.execute(backup_command)` succeeds; on submission failure the
function returns immediately — before any history write or
`complete_job_slot` attempt. -/
def execute_backup_trace (submit_ok : Bool) (resp : Nat → PollResp)
    (label scope : String) (max_polls : Nat) : Bool × List BkEvent :=
  if !submit_ok then (false, [BkEvent.submit_cmd])
  else
    let final_status := poll_backup_status resp label max_polls
    let success := final_status.state == "FINISHED"
    (success,
      [BkEvent.submit_cmd, BkEvent.write_history final_status.state,
        BkEvent.complete_slot scope label final_status.state])

/-- Embedding of the tail of `cli.backup_incremental` from the point where
`reserve_job_slot` has succeeded: `partitions` is the result of
`planner.find_recent_partitions`; the first component is the process exit
code.  When no partitions are found the command exits with code 1 at once. -/
def backup_incremental_after_reserve (partitions : List String)
    (submit_ok : Bool) (resp : Nat → PollResp) (label scope : String)
    (max_polls : Nat) : Nat × List BkEvent :=
  if partitions.isEmpty then (1, [])
  else
    let r := execute_backup_trace submit_ok resp label scope max_polls
    (if r.1 then 0 else 1, r.2)

/-- C3: after a successful reservation, the planning-failure path (no
partitions found) terminates the run with exit code 1 without a single
`complete_job_slot` attempt, and the submission-failure path of
`execute_backup` likewise returns without one — while the path that reaches
polling does attempt the release.  The reserved slot is therefore leaked on
two terminating paths, contradicting the guaranteed-cleanup requirement. -/
theorem job_slot_leaked_on_failure_paths :
    backup_incremental_after_reserve [] true (fun _ => PollResp.empty)
      "L" "backup" 5 = (1, []) ∧
    ((backup_incremental_after_reserve [] true (fun _ => PollResp.empty)
      "L" "backup" 5).2.all (fun e => !is_complete_slot_event e)) = true ∧
    (execute_backup_trace false (fun _ => PollResp.empty)
      "L" "backup" 5).2 = [BkEvent.submit_cmd] ∧
    ((execute_backup_trace false (fun _ => PollResp.empty)
      "L" "backup" 5).2.all (fun e => !is_complete_slot_event e)) = true ∧
    (execute_backup_trace true (fun _ => PollResp.res "L" "FINISHED")
      "L" "backup" 5).2 =
      [BkEvent.submit_cmd, BkEvent.write_history "FINISHED",
        BkEvent.complete_slot "backup" "L" "FINISHED"] := by
  refine ⟨rfl, rfl, rfl, rfl, ?_⟩
  rfl

/-! ### Restore chain resolver: `restore.find_restore_pair`

History rows carry the columns the resolver reads (label, backup_type,
status, finished_at as a number) plus `database_name`, the database the
backup was taken for (BackupRecord metadata; the resolver itself never
reads it — it infers the database from the label prefix).  The SQL
`LIKE '{database_name}_%'` filter is modelled as the literal prefix test;
the counterexample below behaves identically under the SQL reading, where
`_` additionally matches any single character. -/

/-- Row of `ops.backup_history` as read by the restore resolver. -/
structure RHRow where
  label : String
  backup_type : String
  status : String
  finished_at : Nat
  database_name : String
deriving DecidableEq, Repr

/-- SQL `LIKE 'pre%'` with a literal reading of `pre`: a prefix test,
carried out on the character lists so that it evaluates by `decide`. -/
def sql_like_starts (pre s : String) : Bool :=
  pre.data.isPrefixOf s.data

/-- Python `target_label.split('_')[0]`: the characters before the first
underscore (the whole string when there is none). -/
def label_db_name (s : String) : String :=
  ⟨s.data.takeWhile (fun c => c != '_')⟩

/-- The `ORDER BY finished_at DESC LIMIT 1` selection: a row of maximal
`finished_at` among the candidates. -/
def max_by_finished_at : List RHRow → Option RHRow
  | [] => none
  | r :: rest =>
    match max_by_finished_at rest with
    | none => some r
    | some m => if m.finished_at > r.finished_at then some m else some r

/-- Embedding of `restore.find_restore_pair(db, target_label)` over the
history rows: the returned restore order, or the raised ValueError text. -/
def find_restore_pair (hist : List RHRow) (target_label : String) :
    Except String (List String) :=
  match hist.find? (fun r =>
      r.label == target_label && r.status == "FINISHED") with
  | none => Except.error ("Backup label '" ++ target_label ++
      "' not found or not successful")
  | some target_info =>
    if target_info.backup_type = "full" then Except.ok [target_label]
    else if target_info.backup_type = "incremental" then
      let database_name := label_db_name target_label
      let full_rows := hist.filter (fun r =>
        r.backup_type == "full" && r.status == "FINISHED" &&
        sql_like_starts (database_name ++ "_") r.label &&
        decide (r.finished_at < target_info.finished_at))
      match max_by_finished_at full_rows with
      | none => Except.error ("No successful full backup found before incremental '" ++
          target_label ++ "'")
      | some base => Except.ok [base.label, target_label]
    else Except.error ("Unknown backup type '" ++ target_info.backup_type ++
      "' for label '" ++ target_label ++ "'")

/-- What the baseline query actually selects from: a FINISHED full backup
whose label carries the target's first-underscore-token prefix and whose
completion precedes the target's. -/
def restore_base_candidate (target_label : String) (target_finished : Nat)
    (r : RHRow) : Prop :=
  r.backup_type = "full" ∧ r.status = "FINISHED" ∧
  sql_like_starts (label_db_name target_label ++ "_") r.label = true ∧
  r.finished_at < target_finished

instance (target_label : String) (target_finished : Nat) (r : RHRow) :
    Decidable (restore_base_candidate target_label target_finished r) := by
  unfold restore_base_candidate
  infer_instance

lemma max_by_finished_at_spec (l : List RHRow) (hl : l ≠ []) :
    ∃ m, max_by_finished_at l = some m ∧ m ∈ l ∧
      ∀ c ∈ l, c.finished_at ≤ m.finished_at := by
  induction l with
  | nil => exact absurd rfl hl
  | cons r rest ih =>
    by_cases hrest : rest = []
    · subst hrest
      refine ⟨r, by simp [max_by_finished_at], by simp, ?_⟩
      intro c hc
      simp only [List.mem_singleton] at hc
      subst hc
      exact le_rfl
    · obtain ⟨m, hm, hmem, hmax⟩ := ih hrest
      by_cases hgt : m.finished_at > r.finished_at
      · refine ⟨m, ?_, List.mem_cons_of_mem r hmem, ?_⟩
        · simp only [max_by_finished_at, hm]
          rw [if_pos hgt]
        · intro c hc
          rcases List.mem_cons.mp hc with rfl | hc'
          · omega
          · exact hmax c hc'
      · refine ⟨r, ?_, List.mem_cons_self r rest, ?_⟩
        · simp only [max_by_finished_at, hm]
          rw [if_neg hgt]
        · intro c hc
          rcases List.mem_cons.mp hc with rfl | hc'
          · exact le_rfl
          · have := hmax c hc'
            omega

lemma restore_base_candidate_filter (target_label : String)
    (tinfo : RHRow) (r : RHRow) :
    (r.backup_type == "full" && r.status == "FINISHED" &&
      sql_like_starts (label_db_name target_label ++ "_") r.label &&
      decide (r.finished_at < tinfo.finished_at)) = true ↔
    restore_base_candidate target_label tinfo.finished_at r := by
  simp only [Bool.and_eq_true, beq_iff_eq, decide_eq_true_eq,
    restore_base_candidate]
  tauto

/-- C8 amended: when the target is found FINISHED, a full target resolves to
just itself; an incremental target resolves to `[base.label, target]` where
`base` is a candidate of maximal `finished_at` — candidates being FINISHED
full backups whose label starts with the target label's first
underscore-token plus an underscore (a prefix heuristic for "same
database") and that finished strictly before the target — and the
resolution fails when no candidate exists. -/
theorem find_restore_pair_chain_spec (hist : List RHRow)
    (target_label : String) (tinfo : RHRow)
    (hfind : hist.find? (fun r =>
      r.label == target_label && r.status == "FINISHED") = some tinfo) :
    (tinfo.backup_type = "full" →
      find_restore_pair hist target_label = Except.ok [target_label]) ∧
    (tinfo.backup_type = "incremental" →
      ((∃ r ∈ hist, restore_base_candidate target_label tinfo.finished_at r) →
        ∃ base ∈ hist,
          restore_base_candidate target_label tinfo.finished_at base ∧
          find_restore_pair hist target_label =
            Except.ok [base.label, target_label] ∧
          ∀ c ∈ hist, restore_base_candidate target_label tinfo.finished_at c →
            c.finished_at ≤ base.finished_at) ∧
      ((¬ ∃ r ∈ hist, restore_base_candidate target_label tinfo.finished_at r) →
        find_restore_pair hist target_label = Except.error
          ("No successful full backup found before incremental '" ++
            target_label ++ "'"))) := by
  constructor
  · intro hfull
    simp only [find_restore_pair, hfind, if_pos hfull]
  · intro hinc
    have hnotfull : ¬ tinfo.backup_type = "full" := by
      rw [hinc]; decide
    constructor
    · intro ⟨r0, hr0, hc0⟩
      have hfilter_ne : hist.filter (fun r =>
          r.backup_type == "full" && r.status == "FINISHED" &&
          sql_like_starts (label_db_name target_label ++ "_") r.label &&
          decide (r.finished_at < tinfo.finished_at)) ≠ [] := by
        intro hnil
        have : r0 ∈ hist.filter (fun r =>
            r.backup_type == "full" && r.status == "FINISHED" &&
            sql_like_starts (label_db_name target_label ++ "_") r.label &&
            decide (r.finished_at < tinfo.finished_at)) :=
          List.mem_filter.mpr ⟨hr0,
            (restore_base_candidate_filter target_label tinfo r0).mpr hc0⟩
        rw [hnil] at this
        exact absurd this (List.not_mem_nil r0)
      obtain ⟨m, hm, hmem, hmax⟩ := max_by_finished_at_spec _ hfilter_ne
      obtain ⟨hmhist, hmcand⟩ := List.mem_filter.mp hmem
      refine ⟨m, hmhist,
        (restore_base_candidate_filter target_label tinfo m).mp hmcand,
        ?_, ?_⟩
      · simp only [find_restore_pair, hfind, if_neg hnotfull, if_pos hinc, hm]
      · intro c hc hcand
        exact hmax c (List.mem_filter.mpr ⟨hc,
          (restore_base_candidate_filter target_label tinfo c).mpr hcand⟩)
    · intro hno
      have hfilter_nil : hist.filter (fun r =>
          r.backup_type == "full" && r.status == "FINISHED" &&
          sql_like_starts (label_db_name target_label ++ "_") r.label &&
          decide (r.finished_at < tinfo.finished_at)) = [] := by
        rcases hval : hist.filter (fun r =>
            r.backup_type == "full" && r.status == "FINISHED" &&
            sql_like_starts (label_db_name target_label ++ "_") r.label &&
            decide (r.finished_at < tinfo.finished_at)) with _ | ⟨x, xs⟩
        · exact hval
        · exfalso
          have hx : x ∈ hist.filter (fun r =>
              r.backup_type == "full" && r.status == "FINISHED" &&
              sql_like_starts (label_db_name target_label ++ "_") r.label &&
              decide (r.finished_at < tinfo.finished_at)) := by
            rw [hval]; exact List.mem_cons_self x xs
          obtain ⟨hxh, hxc⟩ := List.mem_filter.mp hx
          exact hno ⟨x, hxh,
            (restore_base_candidate_filter target_label tinfo x).mp hxc⟩
      simp only [find_restore_pair, hfind, if_neg hnotfull, if_pos hinc,
        hfilter_nil]
      rfl

/-- History holding backups of two databases, `app` and `app_v2`, whose
names share the first underscore-token `app`. -/
def prefix_clash_history : List RHRow :=
  [⟨"app_20250101_full", "full", "FINISHED", 100, "app"⟩,
   ⟨"app_v2_20250105_full", "full", "FINISHED", 105, "app_v2"⟩,
   ⟨"app_20250110_inc", "incremental", "FINISHED", 110, "app"⟩]

/-- C8 counterexample: resolving the incremental `app_20250110_inc` (of
database `app`) picks the baseline `app_v2_20250105_full` — a full backup of
the different database `app_v2` — although the same-database full backup
`app_20250101_full` precedes the target; the nearest preceding full backup
"for the same database" is not what the label-prefix heuristic returns. -/
theorem find_restore_pair_crosses_databases :
    find_restore_pair prefix_clash_history "app_20250110_inc" =
      Except.ok ["app_v2_20250105_full", "app_20250110_inc"] ∧
    (∃ r ∈ prefix_clash_history,
      r.label = "app_v2_20250105_full" ∧ r.database_name = "app_v2") ∧
    (∃ r ∈ prefix_clash_history,
      r.label = "app_20250110_inc" ∧ r.database_name = "app") ∧
    (∃ r ∈ prefix_clash_history, r.database_name = "app" ∧
      r.backup_type = "full" ∧ r.status = "FINISHED" ∧
      r.finished_at < 110) := by
  refine ⟨rfl, ?_, ?_, ?_⟩
  · refine ⟨⟨"app_v2_20250105_full", "full", "FINISHED", 105, "app_v2"⟩,
      ?_, rfl, rfl⟩
    simp [prefix_clash_history]
  · refine ⟨⟨"app_20250110_inc", "incremental", "FINISHED", 110, "app"⟩,
      ?_, rfl, rfl⟩
    simp [prefix_clash_history]
  · refine ⟨⟨"app_20250101_full", "full", "FINISHED", 100, "app"⟩,
      ?_, rfl, rfl, rfl, ?_⟩
    · simp [prefix_clash_history]
    · decide

/-- Single-database history with two full backups before an incremental. -/
def single_db_history : List RHRow :=
  [⟨"db1_20250101_full", "full", "FINISHED", 100, "db1"⟩,
   ⟨"db1_20250108_full", "full", "FINISHED", 108, "db1"⟩,
   ⟨"db1_20250110_inc", "incremental", "FINISHED", 110, "db1"⟩]

/-- C8 witness: on a single-database history the resolved pair prepends a
maximal-timestamp candidate baseline to the incremental target. -/
theorem find_restore_pair_chain_spec_witness :
    ∃ base ∈ single_db_history,
      restore_base_candidate "db1_20250110_inc" 110 base ∧
      find_restore_pair single_db_history "db1_20250110_inc" =
        Except.ok [base.label, "db1_20250110_inc"] ∧
      ∀ c ∈ single_db_history,
        restore_base_candidate "db1_20250110_inc" 110 c →
          c.finished_at ≤ base.finished_at := by
  have h := (find_restore_pair_chain_spec single_db_history "db1_20250110_inc"
    ⟨"db1_20250110_inc", "incremental", "FINISHED", 110, "db1"⟩
    (by decide)).2 rfl
  exact h.1 ⟨⟨"db1_20250101_full", "full", "FINISHED", 100, "db1"⟩,
    by simp [single_db_history], by decide⟩

/-! ### Restore execution flow: `restore.execute_restore_flow`

Events record the calls the flow makes: each `execute_restore` invocation
(with the built command, its label, and the restore type it is logged
under) and each `db.execute` of a rename statement.  The inner behaviour of
`execute_restore` (submission, polling, history/slot writes) is abstracted
to its `success` outcome, supplied per label by the `restore_ok` oracle;
rename statement outcomes come from `exec_ok`. -/

/-- One observable action of the restore flow. -/
inductive RsEvent where
  | submit_restore (command : String) (label : String) (rtype : String) : RsEvent
  | exec_sql (statement : String) : RsEvent
deriving DecidableEq, Repr

/-- Recogniser for an `execute_restore` invocation event. -/
def is_submit_restore_event : RsEvent → Bool
  | RsEvent.submit_restore _ _ _ => true
  | _ => false

/-- Recogniser for a rename `db.execute` event. -/
def is_exec_sql_event : RsEvent → Bool
  | RsEvent.exec_sql _ => true
  | _ => false

/-- Recogniser for an incremental `execute_restore` invocation. -/
def is_incremental_submit : RsEvent → Bool
  | RsEvent.submit_restore _ _ t => t == "incremental"
  | _ => false

/-- Python `table.split('.', 1)`: the database part before the first dot and
the table part after it. -/
def split_table (s : String) : String × String :=
  (⟨s.data.takeWhile (fun c => c != '.')⟩,
   ⟨(s.data.dropWhile (fun c => c != '.')).drop 1⟩)

/-- Embedding of `restore._build_restore_command_with_rename`. -/
def build_restore_command_with_rename (backup_label repo_name : String)
    (tables : List String) (rename_suffix : String) : String :=
  let table_clauses := tables.map (fun table =>
    let p := split_table table
    "TABLE " ++ p.2 ++ " AS " ++ p.2 ++ rename_suffix)
  "RESTORE SNAPSHOT " ++ backup_label ++ "\n    FROM " ++ repo_name ++
    "\n    ON (" ++ String.intercalate ",\n    " table_clauses ++ ")"

/-- Embedding of `restore._build_restore_command_without_rename`. -/
def build_restore_command_without_rename (backup_label repo_name : String)
    (tables : List String) : String :=
  let table_clauses := tables.map (fun table =>
    "TABLE " ++ (split_table table).2)
  "RESTORE SNAPSHOT " ++ backup_label ++ "\n    FROM " ++ repo_name ++
    "\n    ON (" ++ String.intercalate ",\n    " table_clauses ++ ")"

/-- The rename statement list built by `restore._perform_atomic_rename`:
two RENAME statements per table, in table order. -/
def rename_statements (tables : List String) (rename_suffix : String) :
    List String :=
  tables.flatMap (fun table =>
    let p := split_table table
    ["RENAME TABLE " ++ p.1 ++ "." ++ p.2 ++ " TO " ++ p.1 ++ "." ++ p.2 ++
      "_backup",
     "RENAME TABLE " ++ p.1 ++ "." ++ p.2 ++ rename_suffix ++ " TO " ++
      p.1 ++ "." ++ p.2])

/-- Executing the rename statements in order: the loop stops at the first
`db.execute` failure (the raising call is still an attempted statement),
mirroring the `try`/`except` around the statement loop. -/
def perform_atomic_rename (exec_ok : String → Bool) :
    List String → Bool × List RsEvent
  | [] => (true, [])
  | s :: rest =>
    if exec_ok s then
      let r := perform_atomic_rename exec_ok rest
      (r.1, RsEvent.exec_sql s :: r.2)
    else (false, [RsEvent.exec_sql s])

/-- Embedding of `restore.execute_restore_flow(db, repo_name, restore_pair,
tables_to_restore, rename_suffix)`: overall success together with the
ordered trace of restore submissions and rename executions.  `confirmation`
is the operator's `input()` answer. -/
def execute_restore_flow (restore_ok exec_ok : String → Bool)
    (confirmation repo_name : String) (restore_pair : List String)
    (tables_to_restore : List String) (rename_suffix : String) :
    Bool × List RsEvent :=
  match restore_pair with
  | [] => (false, [])
  | base_label :: rest =>
    if tables_to_restore.isEmpty then (false, [])
    else if confirmation.trim.toLower ≠ "y" then (false, [])
    else
      let base_command := build_restore_command_with_rename base_label
        repo_name tables_to_restore rename_suffix
      let ev0 := [RsEvent.submit_restore base_command base_label "full"]
      if !restore_ok base_label then (false, ev0)
      else
        match rest with
        | [] =>
          let rr := perform_atomic_rename exec_ok
            (rename_statements tables_to_restore rename_suffix)
          (rr.1, ev0 ++ rr.2)
        | incremental_label :: _ =>
          let incremental_command := build_restore_command_without_rename
            incremental_label repo_name tables_to_restore
          let ev1 := ev0 ++ [RsEvent.submit_restore incremental_command
            incremental_label "incremental"]
          if !restore_ok incremental_label then (false, ev1)
          else
            let rr := perform_atomic_rename exec_ok
              (rename_statements tables_to_restore rename_suffix)
            (rr.1, ev1 ++ rr.2)

lemma perform_atomic_rename_all_exec (exec_ok : String → Bool) :
    ∀ stmts, ∀ e ∈ (perform_atomic_rename exec_ok stmts).2,
      is_exec_sql_event e = true := by
  intro stmts
  induction stmts with
  | nil => intro e he; simp [perform_atomic_rename] at he
  | cons s rest ih =>
    intro e he
    simp only [perform_atomic_rename] at he
    by_cases h : exec_ok s = true
    · rw [if_pos h] at he
      simp only [List.mem_cons] at he
      rcases he with rfl | he'
      · rfl
      · exact ih e he'
    · rw [if_neg h] at he
      simp only [List.mem_singleton] at he
      subst he
      rfl

lemma find_restore_pair_shape (hist : List RHRow) (target : String)
    (pair : List String)
    (h : find_restore_pair hist target = Except.ok pair) :
    pair = [target] ∨ ∃ b, pair = [b, target] := by
  unfold find_restore_pair at h
  rcases hf : hist.find? (fun r =>
      r.label == target && r.status == "FINISHED") with _ | tinfo
  · rw [hf] at h
    exact absurd h (by simp)
  · rw [hf] at h
    dsimp only at h
    by_cases h1 : tinfo.backup_type = "full"
    · rw [if_pos h1] at h
      exact Or.inl (by injection h with h'; exact h'.symm)
    · rw [if_neg h1] at h
      by_cases h2 : tinfo.backup_type = "incremental"
      · rw [if_pos h2] at h
        rcases hm : max_by_finished_at (hist.filter (fun r =>
            r.backup_type == "full" && r.status == "FINISHED" &&
            sql_like_starts (label_db_name target ++ "_") r.label &&
            decide (r.finished_at < tinfo.finished_at))) with _ | base
        · rw [hm] at h
          exact absurd h (by simp)
        · rw [hm] at h
          refine Or.inr ⟨base.label, ?_⟩
          injection h with h'
          exact h'.symm
      · rw [if_neg h2] at h
        exact absurd h (by simp)

lemma exec_event_not_submit (e : RsEvent) (h : is_exec_sql_event e = true) :
    is_submit_restore_event e = false := by
  cases e <;> simp_all [is_exec_sql_event, is_submit_restore_event]

lemma exec_event_not_incremental (e : RsEvent) (h : is_exec_sql_event e = true) :
    is_incremental_submit e = false := by
  cases e <;> simp_all [is_exec_sql_event, is_incremental_submit]

lemma execute_restore_flow_trace_cases (restore_ok exec_ok : String → Bool)
    (confirmation repo_name rename_suffix : String) (tables : List String)
    (b : String) (rest : List String) :
    (execute_restore_flow restore_ok exec_ok confirmation repo_name
      (b :: rest) tables rename_suffix).2 = [] ∨
    (restore_ok b = false ∧
      (execute_restore_flow restore_ok exec_ok confirmation repo_name
        (b :: rest) tables rename_suffix).2 =
        [RsEvent.submit_restore (build_restore_command_with_rename b
          repo_name tables rename_suffix) b "full"]) ∨
    (restore_ok b = true ∧ rest = [] ∧
      (execute_restore_flow restore_ok exec_ok confirmation repo_name
        (b :: rest) tables rename_suffix).2 =
        RsEvent.submit_restore (build_restore_command_with_rename b
          repo_name tables rename_suffix) b "full" ::
        (perform_atomic_rename exec_ok
          (rename_statements tables rename_suffix)).2) ∨
    (∃ i rest', rest = i :: rest' ∧ restore_ok b = true ∧
      restore_ok i = false ∧
      (execute_restore_flow restore_ok exec_ok confirmation repo_name
        (b :: rest) tables rename_suffix).2 =
        [RsEvent.submit_restore (build_restore_command_with_rename b
          repo_name tables rename_suffix) b "full",
         RsEvent.submit_restore (build_restore_command_without_rename i
          repo_name tables) i "incremental"]) ∨
    (∃ i rest', rest = i :: rest' ∧ restore_ok b = true ∧
      restore_ok i = true ∧
      (execute_restore_flow restore_ok exec_ok confirmation repo_name
        (b :: rest) tables rename_suffix).2 =
        RsEvent.submit_restore (build_restore_command_with_rename b
          repo_name tables rename_suffix) b "full" ::
        RsEvent.submit_restore (build_restore_command_without_rename i
          repo_name tables) i "incremental" ::
        (perform_atomic_rename exec_ok
          (rename_statements tables rename_suffix)).2) := by
  by_cases ht : tables.isEmpty
  · exact Or.inl (by simp [execute_restore_flow, ht])
  · by_cases hc : confirmation.trim.toLower ≠ "y"
    · exact Or.inl (by simp [execute_restore_flow, ht, hc])
    · cases hb : restore_ok b with
      | false =>
        refine Or.inr (Or.inl ⟨rfl, ?_⟩)
        simp [execute_restore_flow, ht, hc, hb]
      | true =>
        cases rest with
        | nil =>
          refine Or.inr (Or.inr (Or.inl ⟨rfl, rfl, ?_⟩))
          simp [execute_restore_flow, ht, hc, hb]
        | cons i rest' =>
          cases hi : restore_ok i with
          | false =>
            refine Or.inr (Or.inr (Or.inr (Or.inl
              ⟨i, rest', rfl, rfl, hi, ?_⟩)))
            simp [execute_restore_flow, ht, hc, hb, hi]
          | true =>
            refine Or.inr (Or.inr (Or.inr (Or.inr
              ⟨i, rest', rfl, rfl, hi, ?_⟩)))
            simp [execute_restore_flow, ht, hc, hb, hi]

lemma rename_filter_submit_nil (exec_ok : String → Bool)
    (stmts : List String) :
    (perform_atomic_rename exec_ok stmts).2.filter
      is_submit_restore_event = [] :=
  List.filter_eq_nil_iff.mpr (fun e he => by
    simp [exec_event_not_submit e
      (perform_atomic_rename_all_exec exec_ok stmts e he)])

lemma rename_filter_exec_self (exec_ok : String → Bool)
    (stmts : List String) :
    (perform_atomic_rename exec_ok stmts).2.filter is_exec_sql_event =
      (perform_atomic_rename exec_ok stmts).2 :=
  List.filter_eq_self.mpr
    (fun e he => perform_atomic_rename_all_exec exec_ok stmts e he)

lemma rename_filter_incremental_nil (exec_ok : String → Bool)
    (stmts : List String) :
    (perform_atomic_rename exec_ok stmts).2.filter
      is_incremental_submit = [] :=
  List.filter_eq_nil_iff.mpr (fun e he => by
    simp [exec_event_not_incremental e
      (perform_atomic_rename_all_exec exec_ok stmts e he)])

/-- C9: for every chain produced by the resolver, the flow submits the full
restore first (any trace containing an incremental submission starts with
the full one); renames happen only when every chain step's restore
succeeded, and only after all restore submissions; if the base restore
fails, no incremental submission and no rename ever occurs; the executed
chain carries at most one incremental step (so their ascending-time order
is trivially maintained). -/
theorem execute_restore_flow_ordering (hist : List RHRow) (target : String)
    (pair : List String) (restore_ok exec_ok : String → Bool)
    (confirmation repo_name rename_suffix : String) (tables : List String)
    (out : Bool × List RsEvent)
    (hpair : find_restore_pair hist target = Except.ok pair)
    (hout : out = execute_restore_flow restore_ok exec_ok confirmation
      repo_name pair tables rename_suffix) :
    ((∃ c l, RsEvent.submit_restore c l "incremental" ∈ out.2) →
      ∃ c2 l2, out.2.head? = some (RsEvent.submit_restore c2 l2 "full")) ∧
    ((∃ e ∈ out.2, is_exec_sql_event e = true) →
      ∀ l ∈ pair, restore_ok l = true) ∧
    (out.2 = out.2.filter is_submit_restore_event ++
      out.2.filter is_exec_sql_event) ∧
    (∀ b, pair.head? = some b → restore_ok b = false →
      (∀ c l, RsEvent.submit_restore c l "incremental" ∉ out.2) ∧
      (∀ s, RsEvent.exec_sql s ∉ out.2)) ∧
    (out.2.filter is_incremental_submit).length ≤ 1 := by
  subst hout
  rcases find_restore_pair_shape hist target pair hpair with rfl | ⟨b0, rfl⟩
  · rcases execute_restore_flow_trace_cases restore_ok exec_ok confirmation
      repo_name rename_suffix tables target [] with
      heq | ⟨hb, heq⟩ | ⟨hb, -, heq⟩ | ⟨i, rest', hrest, -⟩ | ⟨i, rest', hrest, -⟩
    · rw [heq]
      refine ⟨?_, ?_, by simp, ?_, by simp⟩
      · rintro ⟨c, l, hc⟩
        exact absurd hc (List.not_mem_nil _)
      · rintro ⟨e, he, -⟩
        exact absurd he (List.not_mem_nil _)
      · intro b _ _
        exact ⟨fun c l => List.not_mem_nil _, fun s => List.not_mem_nil _⟩
    · rw [heq]
      refine ⟨fun _ => ⟨_, _, rfl⟩, ?_, ?_, ?_, ?_⟩
      · rintro ⟨e, he, hex⟩
        simp only [List.mem_singleton] at he
        subst he
        simp [is_exec_sql_event] at hex
      · simp [is_submit_restore_event, is_exec_sql_event]
      · intro b hb2 _
        refine ⟨fun c l hmem => ?_, fun s hmem => ?_⟩
        · simp only [List.mem_singleton] at hmem
          injection hmem with h1 h2 h3
          exact absurd h3 (by decide)
        · simp only [List.mem_singleton] at hmem
          exact absurd hmem (by simp)
      · simp [is_incremental_submit]
    · rw [heq]
      refine ⟨fun _ => ⟨_, _, rfl⟩, ?_, ?_, ?_, ?_⟩
      · intro _ l hl
        simp only [List.mem_singleton] at hl
        subst hl
        exact hb
      · rw [List.filter_cons, List.filter_cons]
        simp only [is_submit_restore_event, is_exec_sql_event, if_pos, if_neg]
        simp [rename_filter_submit_nil, rename_filter_exec_self]
      · intro b hb2 hbf
        simp only [List.head?_cons, Option.some_inj] at hb2
        subst hb2
        rw [hbf] at hb
        exact absurd hb (by decide)
      · rw [List.filter_cons]
        simp [is_incremental_submit, rename_filter_incremental_nil]
    · exact absurd hrest (by simp)
    · exact absurd hrest (by simp)
  · rcases execute_restore_flow_trace_cases restore_ok exec_ok confirmation
      repo_name rename_suffix tables b0 [target] with
      heq | ⟨hb, heq⟩ | ⟨-, hrest, -⟩ | ⟨i, rest', hrest, hb, hi, heq⟩ |
      ⟨i, rest', hrest, hb, hi, heq⟩
    · rw [heq]
      refine ⟨?_, ?_, by simp, ?_, by simp⟩
      · rintro ⟨c, l, hc⟩
        exact absurd hc (List.not_mem_nil _)
      · rintro ⟨e, he, -⟩
        exact absurd he (List.not_mem_nil _)
      · intro b _ _
        exact ⟨fun c l => List.not_mem_nil _, fun s => List.not_mem_nil _⟩
    · rw [heq]
      refine ⟨fun _ => ⟨_, _, rfl⟩, ?_, ?_, ?_, ?_⟩
      · rintro ⟨e, he, hex⟩
        simp only [List.mem_singleton] at he
        subst he
        simp [is_exec_sql_event] at hex
      · simp [is_submit_restore_event, is_exec_sql_event]
      · intro b hb2 _
        refine ⟨fun c l hmem => ?_, fun s hmem => ?_⟩
        · simp only [List.mem_singleton] at hmem
          injection hmem with h1 h2 h3
          exact absurd h3 (by decide)
        · simp only [List.mem_singleton] at hmem
          exact absurd hmem (by simp)
      · simp [is_incremental_submit]
    · exact absurd hrest (by simp)
    · injection hrest with hi2 hrest'
      subst hi2
      rw [heq]
      refine ⟨fun _ => ⟨_, _, rfl⟩, ?_, ?_, ?_, ?_⟩
      · rintro ⟨e, he, hex⟩
        simp only [List.mem_cons, List.mem_singleton, List.not_mem_nil,
          or_false] at he
        rcases he with rfl | rfl <;> simp [is_exec_sql_event] at hex
      · simp [is_submit_restore_event, is_exec_sql_event]
      · intro b hb2 hbf
        simp only [List.head?_cons, Option.some_inj] at hb2
        subst hb2
        rw [hbf] at hb
        exact absurd hb (by decide)
      · simp [is_incremental_submit]
    · injection hrest with hi2 hrest'
      subst hi2
      rw [heq]
      refine ⟨fun _ => ⟨_, _, rfl⟩, ?_, ?_, ?_, ?_⟩
      · intro _ l hl
        simp only [List.mem_cons, List.mem_singleton, List.not_mem_nil,
          or_false] at hl
        rcases hl with rfl | rfl
        · exact hb
        · exact hi
      · rw [List.filter_cons, List.filter_cons, List.filter_cons,
          List.filter_cons]
        simp [is_submit_restore_event, is_exec_sql_event,
          rename_filter_submit_nil, rename_filter_exec_self]
      · intro b hb2 hbf
        simp only [List.head?_cons, Option.some_inj] at hb2
        subst hb2
        rw [hbf] at hb
        exact absurd hb (by decide)
      · rw [List.filter_cons, List.filter_cons]
        simp [is_incremental_submit, rename_filter_incremental_nil]

/-- C9 witness: the ordering guarantees instantiated on the resolver output
for `single_db_history` with an all-success engine and a confirmed prompt. -/
theorem execute_restore_flow_ordering_witness :
    ((∃ c l, RsEvent.submit_restore c l "incremental" ∈
        (execute_restore_flow (fun _ => true) (fun _ => true) "y" "repo"
          ["db1_20250108_full", "db1_20250110_inc"] ["db1.t1"]
          "_restored").2) →
      ∃ c2 l2,
        (execute_restore_flow (fun _ => true) (fun _ => true) "y" "repo"
          ["db1_20250108_full", "db1_20250110_inc"] ["db1.t1"]
          "_restored").2.head? =
          some (RsEvent.submit_restore c2 l2 "full")) ∧
    ((∃ e ∈ (execute_restore_flow (fun _ => true) (fun _ => true) "y" "repo"
        ["db1_20250108_full", "db1_20250110_inc"] ["db1.t1"]
        "_restored").2, is_exec_sql_event e = true) →
      ∀ l ∈ ["db1_20250108_full", "db1_20250110_inc"],
        (fun (_ : String) => true) l = true) ∧
    ((execute_restore_flow (fun _ => true) (fun _ => true) "y" "repo"
        ["db1_20250108_full", "db1_20250110_inc"] ["db1.t1"]
        "_restored").2 =
      (execute_restore_flow (fun _ => true) (fun _ => true) "y" "repo"
        ["db1_20250108_full", "db1_20250110_inc"] ["db1.t1"]
        "_restored").2.filter is_submit_restore_event ++
      (execute_restore_flow (fun _ => true) (fun _ => true) "y" "repo"
        ["db1_20250108_full", "db1_20250110_inc"] ["db1.t1"]
        "_restored").2.filter is_exec_sql_event) ∧
    (∀ b, (["db1_20250108_full", "db1_20250110_inc"] : List String).head? =
        some b → (fun (_ : String) => true) b = false →
      (∀ c l, RsEvent.submit_restore c l "incremental" ∉
        (execute_restore_flow (fun _ => true) (fun _ => true) "y" "repo"
          ["db1_20250108_full", "db1_20250110_inc"] ["db1.t1"]
          "_restored").2) ∧
      (∀ s, RsEvent.exec_sql s ∉
        (execute_restore_flow (fun _ => true) (fun _ => true) "y" "repo"
          ["db1_20250108_full", "db1_20250110_inc"] ["db1.t1"]
          "_restored").2)) ∧
    ((execute_restore_flow (fun _ => true) (fun _ => true) "y" "repo"
        ["db1_20250108_full", "db1_20250110_inc"] ["db1.t1"]
        "_restored").2.filter is_incremental_submit).length ≤ 1 :=
  execute_restore_flow_ordering single_db_history "db1_20250110_inc"
    ["db1_20250108_full", "db1_20250110_inc"] (fun _ => true) (fun _ => true)
    "y" "repo" "_restored" ["db1.t1"]
    (execute_restore_flow (fun _ => true) (fun _ => true) "y" "repo"
      ["db1_20250108_full", "db1_20250110_inc"] ["db1.t1"] "_restored")
    rfl rfl

end StarrocksBr
